import Mathlib

/-!
# Verification of the pdf2data table-reconstruction core

Shallow embedding of `pdf2data/pdf.py` (the geometric table-reconstruction
engine): `overlap`, `get_attr_lookup`, `find_attr_group_matching`,
`merge_overlapping_rows` and `find_table`, together with proofs of the
specified properties.

Python floats (page coordinates) are modelled as rationals `ℚ`; Python
exceptions are modelled with `Except` and an explicit error type; Python
dicts (insertion-ordered) are modelled as association lists.
-/

namespace Pdf2Data

/-- `TextLine` from `pdf2data/pdf.py`: a positioned text fragment with a
bounding box `x0 ≤ x1`, `y0 ≤ y1` (the invariant is documented but not
enforced by the constructor, matching the source). -/
structure TextLine where
  text : String
  fontname : String
  x0 : ℚ
  y0 : ℚ
  x1 : ℚ
  y1 : ℚ
deriving DecidableEq, Repr

/-- The coordinate attribute names that the source passes as strings
(`"x0"`, `"y0"`, `"x1"`, `"y1"`) to `getattr`. -/
inductive Attr where
  | x0
  | y0
  | x1
  | y1
deriving DecidableEq, Repr

/-- `getattr(l, attr_name)` for the four coordinate attributes. -/
def getAttr (l : TextLine) : Attr → ℚ
  | .x0 => l.x0
  | .y0 => l.y0
  | .x1 => l.x1
  | .y1 => l.y1

/-- The exceptions the embedded code can raise.  `typeError` stands for
Python's `TypeError` raised when `<` compares two `TextLine` instances
(inside builtin `min`/`max` over tuples); `valueErrorEmptySeq` for the
`ValueError` of `min`/`max` on an empty sequence; `assertionError` for a
failing `assert`; `duplicateKey` carries the offending header key of the
`ValueError` raised on a duplicate row assignment; `valueErrorBias` for the
unrecognized heading-bias `ValueError`; `groupNotFound` for the
`GroupNotFound` exception; `runtimeMoreThanOneGroup` for the
`RuntimeError` raised on an ambiguous group match. -/
inductive PyErr where
  | typeError
  | valueErrorEmptySeq
  | assertionError
  | duplicateKey (key : String)
  | valueErrorBias
  | groupNotFound
  | runtimeMoreThanOneGroup
deriving DecidableEq, Repr

/-- `overlap(a_min, a_max, b_min, b_max)` from `pdf2data/pdf.py`
(the `assert b_min <= b_max` is a no-op when the precondition holds; call
sites where it can fail are modelled separately by `overlapChecked`). -/
def overlap (a_min a_max b_min b_max : ℚ) : ℚ :=
  max 0 (min a_max b_max - max a_min b_min)

/-- The `assert b_min <= b_max` at the head of `overlap`, modelled as a
guard for call sites whose arguments are not already known well-formed. -/
def overlapChecked (a_min a_max b_min b_max : ℚ) : Except PyErr ℚ :=
  if b_min ≤ b_max then .ok (overlap a_min a_max b_min b_max) else .error .assertionError

/-- One comparison step of Python's builtin `min` over `(float, TextLine)`
tuples: tuple `<` compares first components; on equal first components it
compares the second components, which for two distinct `TextLine` objects
raises `TypeError` (object identity is modelled by structural equality). -/
def pyMinAux {α : Type} [DecidableEq α] : ℚ × α → List (ℚ × α) → Except PyErr (ℚ × α)
  | best, [] => .ok best
  | best, x :: xs =>
    if x.1 = best.1 then
      if x.2 = best.2 then pyMinAux best xs
      else .error .typeError
    else if x.1 < best.1 then pyMinAux x xs
    else pyMinAux best xs

/-- Python's builtin `min` over a sequence of `(float, TextLine)` tuples:
`ValueError` on an empty sequence, otherwise a left-to-right scan keeping
the first element as initial best. -/
def pyMin {α : Type} [DecidableEq α] : List (ℚ × α) → Except PyErr (ℚ × α)
  | [] => .error .valueErrorEmptySeq
  | x :: xs => pyMinAux x xs

/-- One comparison step of Python's builtin `max` over `(float, TextLine)`
tuples; mirror image of `pyMinAux`. -/
def pyMaxAux {α : Type} [DecidableEq α] : ℚ × α → List (ℚ × α) → Except PyErr (ℚ × α)
  | best, [] => .ok best
  | best, x :: xs =>
    if x.1 = best.1 then
      if x.2 = best.2 then pyMaxAux best xs
      else .error .typeError
    else if best.1 < x.1 then pyMaxAux x xs
    else pyMaxAux best xs

/-- Python's builtin `max` over a sequence of `(float, TextLine)` tuples. -/
def pyMax {α : Type} [DecidableEq α] : List (ℚ × α) → Except PyErr (ℚ × α)
  | [] => .error .valueErrorEmptySeq
  | x :: xs => pyMaxAux x xs

/-- `sorted(·, key=...)` from Python: a stable ascending sort by a rational
key (Mathlib's insertion sort with the key-induced `≤` is stable in the
same way as Python's `sorted`). -/
def sortByKey (key : TextLine → ℚ) (l : List TextLine) : List TextLine :=
  List.insertionSort (fun a b => key a ≤ key b) l

/-- `sorted(keys)` / `sorted(keys, reverse=True)` on (distinct) float dict
keys, as used for the row-grouping coordinates in `find_table`. -/
def sortedKeys (reverse_sort : Bool) (ks : List ℚ) : List ℚ :=
  if reverse_sort then (List.insertionSort (fun a b => a ≤ b) ks).reverse
  else List.insertionSort (fun a b => a ≤ b) ks

/-- One step of `result.setdefault(key, []).append(l)`: append `l` to the
group of key `k`, creating the group at the end on first occurrence
(Python dicts preserve insertion order). -/
def attrLookupInsert (acc : List (ℚ × List TextLine)) (k : ℚ) (l : TextLine) :
    List (ℚ × List TextLine) :=
  match acc with
  | [] => [(k, [l])]
  | (k0, g) :: rest =>
    if k0 = k then (k0, g ++ [l]) :: rest
    else (k0, g) :: attrLookupInsert rest k l

/-- `get_attr_lookup(lines, attr_name)` from `pdf2data/pdf.py`: group the
lines by the exact value of the given coordinate attribute, as an
insertion-ordered association list. -/
def get_attr_lookup (lines : List TextLine) (attr : Attr) : List (ℚ × List TextLine) :=
  lines.foldl (fun acc l => attrLookupInsert acc (getAttr l attr) l) []

/-- `row_lookup[key]`: look a key up in the association list (the group of
the key, `[]` when absent — call sites only use present keys). -/
def assocFind (acc : List (ℚ × List TextLine)) (k : ℚ) : List TextLine :=
  match acc with
  | [] => []
  | (k0, g) :: rest => if k0 = k then g else assocFind rest k

/-- The matching condition of `find_attr_group_matching`: every regex has
a match in some line of the group (a compiled regular expression is
modelled by the predicate `regex.search(text) is not None`). -/
def groupMatches (regexes : List (String → Bool)) (g : ℚ × List TextLine) : Bool :=
  regexes.all fun regex => g.2.any fun l => regex l.text

/-- `find_attr_group_matching(regexes, attr_name, lines)` from
`pdf2data/pdf.py`. -/
def find_attr_group_matching (regexes : List (String → Bool)) (attr : Attr)
    (lines : List TextLine) : Except PyErr ℚ :=
  let attr_lookup := get_attr_lookup lines attr
  let result := attr_lookup.filter (groupMatches regexes)
  match result with
  | [] => .error .groupNotFound
  | [g] => .ok g.1
  | _ :: _ :: _ => .error .runtimeMoreThanOneGroup

/-- `lctr = (lmin+lmax)*0.5` in `find_table`. -/
def lineCtr (cmin cmax : Attr) (l : TextLine) : ℚ :=
  (getAttr l cmin + getAttr l cmax) * (0.5 : ℚ)

/-- `abs(0.5*(h.col_min + h.col_max) - lctr)`: distance between a header's
column-center and the fragment-center `lctr` in the `"centered"` bias. -/
def headerDist (cmin cmax : Attr) (lctr : ℚ) (h : TextLine) : ℚ :=
  |(0.5 : ℚ) * (getAttr h cmin + getAttr h cmax) - lctr|

/-- `overlaps_and_headers` in `find_table`: each header paired with its
overlap against the fragment's column interval. -/
def overlapsAndHeaders (cmin cmax : Attr) (headers : List TextLine) (l : TextLine) :
    List (ℚ × TextLine) :=
  headers.map fun h =>
    (overlap (getAttr h cmin) (getAttr h cmax) (getAttr l cmin) (getAttr l cmax), h)

/-- `possible_headers` in `find_table`: the headers with truthy (strictly
positive) overlap. -/
def possibleHeaders (cmin cmax : Attr) (headers : List TextLine) (l : TextLine) :
    List (ℚ × TextLine) :=
  (overlapsAndHeaders cmin cmax headers l).filter fun p => p.1 != 0

/-- The argument list of the `"centered"`-bias `min(...)` call in
`find_table`: every header paired with its center distance to `lctr`. -/
def centeredCandidates (cmin cmax : Attr) (headers : List TextLine) (l : TextLine) :
    List (ℚ × TextLine) :=
  headers.map fun h => (headerDist cmin cmax (lineCtr cmin cmax l) h, h)

/-- The argument list of the `"min"`-bias `max(...)` call in `find_table`:
the headers whose column-minimum is at or before `lmin`, each paired with
that column-minimum. -/
def minBiasCandidates (cmin : Attr) (headers : List TextLine) (lmin : ℚ) :
    List (ℚ × TextLine) :=
  (headers.filter fun h => getAttr h cmin ≤ lmin).map fun h => (getAttr h cmin, h)

/-- The body of `find_table`'s per-fragment loop (lines 347-401): choose
the header key for fragment `l`, given the already-sorted header list.
Models the `assert lmin <= lmax`, the three overlap cases, and the two
heading-bias fallbacks with Python's tuple-`min`/`max` semantics. -/
def chooseHeader (cmin cmax : Attr) (heading_bias : String)
    (headers : List TextLine) (l : TextLine) : Except PyErr String :=
  let lmin := getAttr l cmin
  let lmax := getAttr l cmax
  if lmin ≤ lmax then
    match possibleHeaders cmin cmax headers l with
    | [] =>
      if heading_bias = "centered" then
        (pyMin (centeredCandidates cmin cmax headers l)).map fun p => p.2.text
      else if heading_bias = "min" then
        (pyMax (minBiasCandidates cmin headers lmin)).map fun p => p.2.text
      else .error .valueErrorBias
    | [(_, h)] => .ok h.text
    | ph₀ :: ph₁ :: phs =>
      (pyMin ((ph₀ :: ph₁ :: phs).map fun p => (getAttr p.2 cmin, p.2))).map
        fun p => p.2.text
  else .error .assertionError

/-- A row under construction: Python dict from header key to fragment, as
an insertion-ordered association list. -/
abbrev Row := List (String × TextLine)

/-- The keys of a row dict. -/
def rowKeys (row : Row) : List String := row.map Prod.fst

/-- The values of a row dict (`row.values()`). -/
def rowValues (row : Row) : List TextLine := row.map Prod.snd

/-- `row[k]`: first-match lookup in a row dict. -/
def rowGet (row : Row) (k : String) : Option TextLine :=
  match row with
  | [] => none
  | p :: rest => if p.1 = k then some p.2 else rowGet rest k

/-- The inner fragment loop of `find_table` (lines 347-406): fill one row
dict from the fragments of one row cluster, raising `duplicateKey` when a
chosen key is already present. -/
def buildRow (cmin cmax : Attr) (heading_bias : String) (headers : List TextLine) :
    Row → List TextLine → Except PyErr Row
  | row, [] => .ok row
  | row, l :: rest =>
    match chooseHeader cmin cmax heading_bias headers l with
    | .error e => .error e
    | .ok key =>
      if key ∈ rowKeys row then .error (.duplicateKey key)
      else buildRow cmin cmax heading_bias headers (row ++ [(key, l)]) rest

/-- The outer row-cluster loop of `find_table`: build one row per sorted
row-grouping key. -/
def buildRows (cmin cmax : Attr) (heading_bias : String) (headers : List TextLine)
    (row_lookup : List (ℚ × List TextLine)) : List ℚ → Except PyErr (List Row)
  | [] => .ok []
  | k :: ks =>
    match buildRow cmin cmax heading_bias headers [] (assocFind row_lookup k) with
    | .error e => .error e
    | .ok row =>
      match buildRows cmin cmax heading_bias headers row_lookup ks with
      | .error e => .error e
      | .ok rows => .ok (row :: rows)

/-- Python `min(seq)` over floats: `ValueError` on an empty sequence. -/
def pyListMin : List ℚ → Except PyErr ℚ
  | [] => .error .valueErrorEmptySeq
  | x :: xs => .ok (xs.foldl min x)

/-- Python `max(seq)` over floats: `ValueError` on an empty sequence. -/
def pyListMax : List ℚ → Except PyErr ℚ
  | [] => .error .valueErrorEmptySeq
  | x :: xs => .ok (xs.foldl max x)

/-- `get_row_extent(row)` from `merge_overlapping_rows`: the pair
`(min over fragments of row_min_attr, max over fragments of row_max_attr)`;
raises `ValueError` on an empty row dict. -/
def get_row_extent (rmin rmax : Attr) (row : Row) : Except PyErr (ℚ × ℚ) :=
  match pyListMin ((rowValues row).map fun l => getAttr l rmin),
        pyListMax ((rowValues row).map fun l => getAttr l rmax) with
  | .ok a, .ok b => .ok (a, b)
  | .error e, _ => .error e
  | .ok _, .error e => .error e

/-- `row[k] = v` on a dict: overwrite in place when the key is present
(keeping its position), append otherwise. -/
def dictSet (row : Row) (k : String) (v : TextLine) : Row :=
  if k ∈ rowKeys row then row.map fun p => if p.1 = k then (k, v) else p
  else row ++ [(k, v)]

/-- `row.update(next_row)`: fold the later row's pairs into the earlier
one, overwriting on key collision. -/
def rowUpdate (row next : Row) : Row :=
  next.foldl (fun r p => dictSet r p.1 p.2) row

/-- The `while` loop of `merge_overlapping_rows`: `new_rows` is the output
so far, `row` the current accumulator, the remaining rows the argument.
The `assert` inside `overlap` applies to the *next* row's extent. -/
def mergeAux (rmin rmax : Attr) (new_rows : List Row) (row : Row) :
    List Row → Except PyErr (List Row)
  | [] => .ok (new_rows ++ [row])
  | next :: rest =>
    match get_row_extent rmin rmax row, get_row_extent rmin rmax next with
    | .ok (row_min, row_max), .ok (next_min, next_max) =>
      match overlapChecked row_min row_max next_min next_max with
      | .error e => .error e
      | .ok ovl =>
        if ovl != 0 then mergeAux rmin rmax new_rows (rowUpdate row next) rest
        else mergeAux rmin rmax (new_rows ++ [row]) next rest
    | .error e, _ => .error e
    | .ok _, .error e => .error e

/-- `merge_overlapping_rows(rows, row_min_attr_name, row_max_attr_name)`
from `pdf2data/pdf.py` (lines 300-332). -/
def merge_overlapping_rows (rows : List Row) (rmin rmax : Attr) :
    Except PyErr (List Row) :=
  match rows with
  | [] => .ok []
  | row :: rest => mergeAux rmin rmax [] row rest

/-- A row is well-formed when it is nonempty (a dict built by `find_table`
always is) and each of its fragments satisfies the bounding-box invariant
on the row axis. -/
def rowWF (rmin rmax : Attr) (row : Row) : Prop :=
  row ≠ [] ∧ ∀ p ∈ row, getAttr p.2 rmin ≤ getAttr p.2 rmax

/-- Total row extent for nonempty rows (junk value `(0,0)` on the empty
row, which well-formedness excludes); agrees with `get_row_extent`. -/
def specRowExtent (rmin rmax : Attr) (row : Row) : ℚ × ℚ :=
  match row with
  | [] => (0, 0)
  | p :: rest =>
    ((rest.map fun q => getAttr q.2 rmin).foldl min (getAttr p.2 rmin),
     (rest.map fun q => getAttr q.2 rmax).foldl max (getAttr p.2 rmax))

/-- Modelled from the spec wording of the row merger (§4.5 / claim C6):
walk the rows in order with an accumulator; when the next row's extent has
strictly positive overlap with the accumulator's extent, merge the next
row's pairs into the accumulator (later entries overwrite); otherwise
append the accumulator and continue from the next row; always append the
final accumulator. -/
def mergeSpecAux (rmin rmax : Attr) (acc : Row) : List Row → List Row
  | [] => [acc]
  | next :: rest =>
    if 0 < overlap (specRowExtent rmin rmax acc).1 (specRowExtent rmin rmax acc).2
        (specRowExtent rmin rmax next).1 (specRowExtent rmin rmax next).2 then
      mergeSpecAux rmin rmax (rowUpdate acc next) rest
    else acc :: mergeSpecAux rmin rmax next rest

/-- Modelled from the spec wording (§4.5 / claim C6): the row merger as
described — empty input yields empty output, otherwise the accumulator
walk of `mergeSpecAux`. -/
def mergeSpec (rmin rmax : Attr) : List Row → List Row
  | [] => []
  | row :: rest => mergeSpecAux rmin rmax row rest

/-- `find_table` from `pdf2data/pdf.py` (lines 335-408).  `row_max_attr`
is accepted but unused, as in the source. -/
def find_table (headers lines : List TextLine)
    (row_min_attr _row_max_attr cmin cmax : Attr)
    (reverse_sort : Bool) (heading_bias : String) : Except PyErr (List Row) :=
  let sheaders := sortByKey (fun h => getAttr h cmin) headers
  let row_lookup := get_attr_lookup lines row_min_attr
  buildRows cmin cmax heading_bias sheaders row_lookup
    (sortedKeys reverse_sort (row_lookup.map Prod.fst))

end Pdf2Data

namespace Pdf2Data

/-- C8: for well-formed intervals, `overlap` is the length of the
intersection of `[a_min,a_max]` and `[b_min,b_max]` when they intersect,
`0` when they are disjoint, is always nonnegative, and is symmetric under
exchanging the two interval argument pairs. -/
theorem overlap_spec (a_min a_max b_min b_max : ℚ)
    (_ha : a_min ≤ a_max) (_hb : b_min ≤ b_max) :
    0 ≤ overlap a_min a_max b_min b_max
    ∧ overlap a_min a_max b_min b_max = overlap b_min b_max a_min a_max
    ∧ ((Set.Icc a_min a_max ∩ Set.Icc b_min b_max).Nonempty →
        overlap a_min a_max b_min b_max
          = min a_max b_max - max a_min b_min)
    ∧ (Set.Icc a_min a_max ∩ Set.Icc b_min b_max = ∅ →
        overlap a_min a_max b_min b_max = 0) := by
  refine ⟨le_max_left _ _, ?_, ?_, ?_⟩
  · unfold overlap
    rw [min_comm a_max b_max, max_comm a_min b_min]
  · intro hne
    rw [Set.Icc_inter_Icc, Set.nonempty_Icc] at hne
    unfold overlap
    exact max_eq_right (by linarith)
  · intro hdisj
    rw [Set.Icc_inter_Icc, Set.Icc_eq_empty_iff] at hdisj
    push_neg at hdisj
    unfold overlap
    exact max_eq_left (by linarith)

/-- Witness for C8 at the concrete intervals `[0,5]` and `[3,7]`
(intersecting, intersection length `2`) — all hypotheses discharged
concretely. -/
theorem overlap_spec_witness :
    0 ≤ overlap 0 5 3 7
    ∧ overlap 0 5 3 7 = overlap 3 7 0 5
    ∧ overlap 0 5 3 7 = min (5 : ℚ) 7 - max (0 : ℚ) 3 := by
  have h := overlap_spec 0 5 3 7 (by norm_num) (by norm_num)
  exact ⟨h.1, h.2.1, h.2.2.1 ⟨3, by constructor <;> (constructor <;> norm_num)⟩⟩

/-- The overlap value is never negative (truthiness of `if ovl:` therefore
means strictly positive overlap). -/
lemma overlap_nonneg (a_min a_max b_min b_max : ℚ) :
    0 ≤ overlap a_min a_max b_min b_max :=
  le_max_left _ _

/-- Python `min`: when the initial best is strictly below every remaining
first component, the scan keeps it and no tie is ever compared. -/
lemma pyMinAux_of_lt {α : Type} [DecidableEq α] (xs : List (ℚ × α)) (best : ℚ × α)
    (h : ∀ x ∈ xs, best.1 < x.1) : pyMinAux best xs = .ok best := by
  induction xs with
  | nil => rfl
  | cons x t ih =>
    have hx := h x (List.mem_cons_self x t)
    rw [pyMinAux, if_neg (by exact fun he => absurd he (ne_of_gt hx)),
      if_neg (not_lt_of_gt hx)]
    exact ih fun y hy => h y (List.mem_cons_of_mem x hy)

/-- Python `min` over `(value, object)` tuples: when the first components
are pairwise distinct, the scan never reaches an object comparison and
returns the unique entry with minimal first component. -/
lemma pyMinAux_unique_min {α : Type} [DecidableEq α] (xs : List (ℚ × α)) (best m : ℚ × α)
    (hpw : List.Pairwise (fun p q => p.1 ≠ q.1) (best :: xs))
    (hmem : m ∈ best :: xs)
    (hmin : ∀ y ∈ best :: xs, y ≠ m → m.1 < y.1) :
    pyMinAux best xs = .ok m := by
  induction xs generalizing best with
  | nil =>
    have hmb : m = best := List.mem_singleton.mp hmem
    rw [hmb]
    rfl
  | cons x t ih =>
    have hbx : best.1 ≠ x.1 := (List.pairwise_cons.mp hpw).1 x (List.mem_cons_self x t)
    rw [pyMinAux, if_neg (Ne.symm hbx)]
    by_cases hlt : x.1 < best.1
    · rw [if_pos hlt]
      have hbm : best ≠ m := by
        intro hb
        have hxm : x ≠ m := fun he => hbx (by rw [hb, he])
        have hmx := hmin x (by simp) hxm
        rw [← hb] at hmx
        exact absurd hlt (not_lt_of_gt hmx)
      have hmem' : m ∈ x :: t := by
        rw [List.mem_cons] at hmem
        rcases hmem with h1 | h1
        · exact absurd h1.symm hbm
        · exact h1
      exact ih x (List.pairwise_cons.mp hpw).2 hmem'
        fun y hy hne => hmin y (List.mem_cons_of_mem best hy) hne
    · rw [if_neg hlt]
      have hgt : best.1 < x.1 := lt_of_le_of_ne (not_lt.mp hlt) hbx
      have hxm : x ≠ m := by
        intro hx
        have hbm : best ≠ m := fun he => hbx (by rw [he, hx])
        have hmb := hmin best (by simp) hbm
        rw [← hx] at hmb
        exact absurd hmb (not_lt_of_gt hgt)
      have hmem' : m ∈ best :: t := by
        rw [List.mem_cons] at hmem ⊢
        rcases hmem with h1 | h1
        · exact Or.inl h1
        · rw [List.mem_cons] at h1
          rcases h1 with h1 | h1
          · exact absurd h1.symm hxm
          · exact Or.inr h1
      have hsub : (best :: t).Sublist (best :: x :: t) :=
        List.Sublist.cons₂ best (List.sublist_cons_self x t)
      exact ih best (hpw.sublist hsub) hmem'
        fun y hy hne => hmin y (hsub.mem hy) hne

/-- Python `max` over tuples with strictly increasing first components
returns the last entry (no tie comparison is reached). -/
lemma pyMaxAux_chain {α : Type} [DecidableEq α] (xs : List (ℚ × α)) (best : ℚ × α)
    (h : List.Chain' (fun p q => p.1 < q.1) (best :: xs)) :
    pyMaxAux best xs = .ok ((best :: xs).getLast (List.cons_ne_nil best xs)) := by
  induction xs generalizing best with
  | nil => rfl
  | cons x t ih =>
    have h1 : best.1 < x.1 := (List.chain'_cons.mp h).1
    have h2 : List.Chain' (fun p q => p.1 < q.1) (x :: t) := (List.chain'_cons.mp h).2
    rw [pyMaxAux, if_neg (by exact fun he => absurd he (ne_of_gt h1)), if_pos h1,
      List.getLast_cons (List.cons_ne_nil x t)]
    exact ih x h2

/-- Strictly increasing first components: every entry's first component is
at most the last entry's. -/
lemma chain_lt_le_getLast {α : Type} (q : ℚ × α) (qs : List (ℚ × α))
    (h : List.Chain' (fun p r => p.1 < r.1) (q :: qs)) :
    ∀ p ∈ q :: qs, p.1 ≤ ((q :: qs).getLast (List.cons_ne_nil q qs)).1 := by
  induction qs generalizing q with
  | nil => simp
  | cons r t ih =>
    intro p hp
    have h1 : q.1 < r.1 := (List.chain'_cons.mp h).1
    have h2 : List.Chain' (fun p r => p.1 < r.1) (r :: t) := (List.chain'_cons.mp h).2
    rw [List.getLast_cons (List.cons_ne_nil r t)]
    rw [List.mem_cons] at hp
    rcases hp with hp | hp
    · exact le_trans (le_of_lt (hp ▸ h1)) (ih r h2 r (List.mem_cons_self r t))
    · exact ih r h2 p hp

/-- Unfolding `chooseHeader` in the multiple-overlap case: the choice is
the Python `min` over `(col_min, header)` tuples of the overlapping set. -/
lemma chooseHeader_multi (cmin cmax : Attr) (bias : String) (headers : List TextLine)
    (l : TextLine) (p₀ p₁ : ℚ × TextLine) (ps : List (ℚ × TextLine))
    (hwf : getAttr l cmin ≤ getAttr l cmax)
    (hP : possibleHeaders cmin cmax headers l = p₀ :: p₁ :: ps) :
    chooseHeader cmin cmax bias headers l
      = (pyMin ((p₀ :: p₁ :: ps).map fun p => (getAttr p.2 cmin, p.2))).map
          (fun p => p.2.text) := by
  unfold chooseHeader
  rw [if_pos hwf, hP]

/-- Unfolding `chooseHeader` in the no-overlap case under `"centered"`
bias: the Python `min` over `(center distance, header)` tuples. -/
lemma chooseHeader_none_centered (cmin cmax : Attr) (headers : List TextLine) (l : TextLine)
    (hwf : getAttr l cmin ≤ getAttr l cmax)
    (hno : possibleHeaders cmin cmax headers l = []) :
    chooseHeader cmin cmax "centered" headers l
      = (pyMin (centeredCandidates cmin cmax headers l)).map (fun p => p.2.text) := by
  unfold chooseHeader
  rw [if_pos hwf, hno, if_pos rfl]

/-- Unfolding `chooseHeader` in the no-overlap case under `"min"` bias:
the Python `max` over `(col_min, header)` tuples of the qualifying set. -/
lemma chooseHeader_none_min (cmin cmax : Attr) (headers : List TextLine) (l : TextLine)
    (hwf : getAttr l cmin ≤ getAttr l cmax)
    (hno : possibleHeaders cmin cmax headers l = []) :
    chooseHeader cmin cmax "min" headers l
      = (pyMax (minBiasCandidates cmin headers (getAttr l cmin))).map
          (fun p => p.2.text) := by
  unfold chooseHeader
  rw [if_pos hwf, hno, if_neg (by decide), if_pos rfl]

/-- The `sorted(headers, key=...)` call yields a list ascending in the
key. -/
lemma sortByKey_sorted (key : TextLine → ℚ) (l : List TextLine) :
    List.Pairwise (fun a b => key a ≤ key b) (sortByKey key l) := by
  haveI : IsTotal TextLine (fun a b => key a ≤ key b) := ⟨fun a b => le_total _ _⟩
  haveI : IsTrans TextLine (fun a b => key a ≤ key b) := ⟨fun a b c hab hbc => le_trans hab hbc⟩
  exact List.sorted_insertionSort _ l

/-- The `"min"`-bias candidate list inherits ascending column-minima from
the header sort. -/
lemma minBiasCandidates_pairwise_le (cmin : Attr) (headers : List TextLine) (x : ℚ) :
    List.Pairwise (fun p r => p.1 ≤ r.1)
      (minBiasCandidates cmin (sortByKey (fun h => getAttr h cmin) headers) x) := by
  unfold minBiasCandidates
  rw [List.pairwise_map]
  exact (sortByKey_sorted (fun h => getAttr h cmin) headers).filter _

/-- C4 (amended): in `find_table`, a body fragment with strictly positive
overlap with two or more headers is assigned to the overlapping header
with the smallest column-minimum, provided that smallest column-minimum is
attained by exactly one overlapping header (`p₀` is the head of the
overlap list computed over the colMin-sorted headers, and every other
overlapping header has a strictly larger column-minimum; the
counterexample shows the tied case instead raises `TypeError`). -/
theorem find_table_multi_overlap (cmin cmax : Attr) (heading_bias : String)
    (headers : List TextLine) (l : TextLine)
    (hwf : getAttr l cmin ≤ getAttr l cmax)
    (p₀ p₁ : ℚ × TextLine) (ps : List (ℚ × TextLine))
    (hP : possibleHeaders cmin cmax (sortByKey (fun h => getAttr h cmin) headers) l
        = p₀ :: p₁ :: ps)
    (huniq : ∀ p ∈ p₁ :: ps, getAttr p₀.2 cmin < getAttr p.2 cmin) :
    chooseHeader cmin cmax heading_bias (sortByKey (fun h => getAttr h cmin) headers) l
      = .ok p₀.2.text
    ∧ ∀ p ∈ possibleHeaders cmin cmax (sortByKey (fun h => getAttr h cmin) headers) l,
        getAttr p₀.2 cmin ≤ getAttr p.2 cmin := by
  constructor
  · rw [chooseHeader_multi cmin cmax heading_bias _ l p₀ p₁ ps hwf hP]
    have hok : pyMin ((p₀ :: p₁ :: ps).map fun p => (getAttr p.2 cmin, p.2))
        = .ok (getAttr p₀.2 cmin, p₀.2) := by
      rw [List.map_cons, pyMin]
      apply pyMinAux_of_lt
      intro x hx
      rw [List.mem_map] at hx
      rcases hx with ⟨p, hp, hpx⟩
      rw [← hpx]
      exact huniq p hp
    rw [hok]
    rfl
  · intro p hp
    rw [hP, List.mem_cons] at hp
    rcases hp with hp | hp
    · rw [hp]
    · exact le_of_lt (huniq p hp)

/-- C4 counterexample: headers `A` with span `[0,10]` and `B` with span
`[0,8]` share the column-minimum `0`; the fragment `[1,2]` overlaps both
(the overlap list has length 2), yet `find_table` raises `TypeError`
(Python compares the two `TextLine` objects on the tie) instead of
assigning the fragment to a smallest-`colMin` header. -/
theorem find_table_multi_overlap_counterexample :
    (possibleHeaders .x0 .x1
      (sortByKey (fun h => getAttr h .x0)
        [⟨"A", "f", 0, 100, 10, 101⟩, ⟨"B", "f", 0, 100, 8, 101⟩])
      ⟨"x", "f", 1, 50, 2, 51⟩).length = 2
    ∧ find_table [⟨"A", "f", 0, 100, 10, 101⟩, ⟨"B", "f", 0, 100, 8, 101⟩]
        [⟨"x", "f", 1, 50, 2, 51⟩] .y0 .y1 .x0 .x1 true "centered"
      = .error .typeError := by
  constructor
  · norm_num [possibleHeaders, overlapsAndHeaders, overlap, sortByKey, getAttr,
      List.insertionSort, List.orderedInsert]
  · norm_num [find_table, buildRows, buildRow, chooseHeader, possibleHeaders,
      overlapsAndHeaders, overlap, sortByKey, sortedKeys, get_attr_lookup,
      attrLookupInsert, assocFind, getAttr, pyMin, pyMinAux, headerDist, lineCtr,
      rowKeys, List.insertionSort, List.orderedInsert, Except.map]

/-- Witness for C4: headers `A` (`colMin 0`) and `B` (`colMin 5`) both
overlap the fragment `[6,9]` and the smallest column-minimum is unique, so
the fragment is assigned to `A`. -/
theorem find_table_multi_overlap_witness :
    chooseHeader .x0 .x1 "centered"
      (sortByKey (fun h => getAttr h .x0)
        [⟨"A", "f", 0, 100, 10, 101⟩, ⟨"B", "f", 5, 100, 12, 101⟩])
      ⟨"x", "f", 6, 50, 9, 51⟩ = .ok "A" := by
  have h := find_table_multi_overlap .x0 .x1 "centered"
    [⟨"A", "f", 0, 100, 10, 101⟩, ⟨"B", "f", 5, 100, 12, 101⟩]
    ⟨"x", "f", 6, 50, 9, 51⟩ (by norm_num [getAttr])
    (3, ⟨"A", "f", 0, 100, 10, 101⟩) (3, ⟨"B", "f", 5, 100, 12, 101⟩) []
    (by norm_num [possibleHeaders, overlapsAndHeaders, overlap, sortByKey, getAttr,
      List.insertionSort, List.orderedInsert])
    (by intro p hp; simp at hp; rw [hp]; norm_num [getAttr])
  exact h.1

/-- C5 (amended): in `find_table` under `"min"` bias, for a body fragment
with zero positive overlap: with no header anchored at or before the
fragment's column-minimum the call raises the empty-sequence `ValueError`
(as the claim states); with at least one such header and all qualifying
column-minima pairwise distinct, the fragment is assigned to the header
with the largest qualifying column-minimum (the counterexample shows that
duplicated qualifying column-minima instead raise `TypeError`). -/
theorem find_table_min_bias (cmin cmax : Attr) (headers : List TextLine) (l : TextLine)
    (hwf : getAttr l cmin ≤ getAttr l cmax)
    (hno : possibleHeaders cmin cmax (sortByKey (fun h => getAttr h cmin) headers) l = []) :
    (minBiasCandidates cmin (sortByKey (fun h => getAttr h cmin) headers) (getAttr l cmin) = []
      → chooseHeader cmin cmax "min" (sortByKey (fun h => getAttr h cmin) headers) l
          = .error .valueErrorEmptySeq)
    ∧ ∀ q qs,
        minBiasCandidates cmin (sortByKey (fun h => getAttr h cmin) headers) (getAttr l cmin)
          = q :: qs
        → ((q :: qs).map Prod.fst).Nodup
        → chooseHeader cmin cmax "min" (sortByKey (fun h => getAttr h cmin) headers) l
            = .ok ((q :: qs).getLast (List.cons_ne_nil q qs)).2.text
          ∧ ∀ p ∈ q :: qs, p.1 ≤ ((q :: qs).getLast (List.cons_ne_nil q qs)).1 := by
  rw [chooseHeader_none_min cmin cmax _ l hwf hno]
  constructor
  · intro hq
    rw [hq]
    rfl
  · intro q qs hq hnd
    have hpw_le : List.Pairwise (fun p r => p.1 ≤ r.1) (q :: qs) := by
      rw [← hq]; exact minBiasCandidates_pairwise_le cmin headers (getAttr l cmin)
    have hpw_ne : List.Pairwise (fun p r => p.1 ≠ r.1) (q :: qs) :=
      List.pairwise_map.mp hnd
    have hpw_lt : List.Pairwise (fun p r => p.1 < r.1) (q :: qs) :=
      (hpw_le.and hpw_ne).imp fun h => lt_of_le_of_ne h.1 h.2
    have hch : List.Chain' (fun p r => p.1 < r.1) (q :: qs) := hpw_lt.chain'
    constructor
    · rw [hq, pyMax, pyMaxAux_chain qs q hch]
      rfl
    · exact chain_lt_le_getLast q qs hch

/-- C5 counterexample: headers `A` (span `[1,1]`) and `B` (span `[1,2]`)
both qualify (column-minimum `1 ≤ 5`) for the fragment `[5,6]`, which
overlaps neither; the duplicated qualifying column-minimum makes
`find_table` under `"min"` bias raise `TypeError` rather than assign the
header with the largest qualifying column-minimum. -/
theorem find_table_min_bias_counterexample :
    possibleHeaders .x0 .x1
      (sortByKey (fun h => getAttr h .x0)
        [⟨"A", "f", 1, 100, 1, 101⟩, ⟨"B", "f", 1, 100, 2, 101⟩])
      ⟨"x", "f", 5, 50, 6, 51⟩ = []
    ∧ (minBiasCandidates .x0
        (sortByKey (fun h => getAttr h .x0)
          [⟨"A", "f", 1, 100, 1, 101⟩, ⟨"B", "f", 1, 100, 2, 101⟩]) 5).length = 2
    ∧ find_table [⟨"A", "f", 1, 100, 1, 101⟩, ⟨"B", "f", 1, 100, 2, 101⟩]
        [⟨"x", "f", 5, 50, 6, 51⟩] .y0 .y1 .x0 .x1 true "min"
      = .error .typeError := by
  refine ⟨?_, ?_, ?_⟩
  · norm_num [possibleHeaders, overlapsAndHeaders, overlap, sortByKey, getAttr,
      List.insertionSort, List.orderedInsert]
  · norm_num [minBiasCandidates, sortByKey, getAttr, List.insertionSort, List.orderedInsert]
  · simp [find_table, buildRows, buildRow, chooseHeader, possibleHeaders,
      overlapsAndHeaders, overlap, sortByKey, sortedKeys, get_attr_lookup,
      attrLookupInsert, assocFind, getAttr, pyMax, pyMaxAux, minBiasCandidates,
      rowKeys, List.insertionSort, List.orderedInsert, Except.map]
    norm_num [pyMin, pyMinAux, Except.map]

/-- Witness for C5: headers `A` (`colMin 0`) and `B` (`colMin 2`) with
distinct column-minima, fragment `[5,6]` overlapping neither; under
`"min"` bias the fragment is assigned to `B`, the header with the largest
qualifying column-minimum. -/
theorem find_table_min_bias_witness :
    chooseHeader .x0 .x1 "min"
      (sortByKey (fun h => getAttr h .x0)
        [⟨"A", "f", 0, 100, 1, 101⟩, ⟨"B", "f", 2, 100, 3, 101⟩])
      ⟨"x", "f", 5, 50, 6, 51⟩ = .ok "B" := by
  have h := (find_table_min_bias .x0 .x1
    [⟨"A", "f", 0, 100, 1, 101⟩, ⟨"B", "f", 2, 100, 3, 101⟩]
    ⟨"x", "f", 5, 50, 6, 51⟩ (by norm_num [getAttr])
    (by norm_num [possibleHeaders, overlapsAndHeaders, overlap, sortByKey, getAttr,
      List.insertionSort, List.orderedInsert])).2
    (0, ⟨"A", "f", 0, 100, 1, 101⟩) [(2, ⟨"B", "f", 2, 100, 3, 101⟩)]
    (by norm_num [minBiasCandidates, sortByKey, getAttr, List.insertionSort,
      List.orderedInsert])
    (by norm_num)
  exact h.1

/-- C1 (amended): in `find_table` under `"centered"` bias, a body
fragment with zero positive overlap is assigned to the header whose
column-center is nearest the fragment's column-center, provided the
center distances of the headers are pairwise distinct (the counterexample
shows an exact tie instead raises `TypeError`, so the claimed
first-in-sorted-order tie-break and error-freeness fail). -/
theorem find_table_centered_bias (cmin cmax : Attr) (headers : List TextLine) (l : TextLine)
    (hwf : getAttr l cmin ≤ getAttr l cmax)
    (hno : possibleHeaders cmin cmax (sortByKey (fun h => getAttr h cmin) headers) l = [])
    (m : ℚ × TextLine)
    (hpw : List.Pairwise (fun p q => p.1 ≠ q.1)
      (centeredCandidates cmin cmax (sortByKey (fun h => getAttr h cmin) headers) l))
    (hmem : m ∈ centeredCandidates cmin cmax (sortByKey (fun h => getAttr h cmin) headers) l)
    (hmin : ∀ y ∈ centeredCandidates cmin cmax (sortByKey (fun h => getAttr h cmin) headers) l,
      y ≠ m → m.1 < y.1) :
    chooseHeader cmin cmax "centered" (sortByKey (fun h => getAttr h cmin) headers) l
      = .ok m.2.text
    ∧ ∀ y ∈ centeredCandidates cmin cmax (sortByKey (fun h => getAttr h cmin) headers) l,
        m.1 ≤ y.1 := by
  constructor
  · rw [chooseHeader_none_centered cmin cmax _ l hwf hno]
    rcases hE : centeredCandidates cmin cmax (sortByKey (fun h => getAttr h cmin) headers) l
      with _ | ⟨c, cs⟩
    · rw [hE] at hmem
      exact absurd hmem (List.not_mem_nil m)
    · rw [hE] at hpw hmem hmin
      rw [pyMin, pyMinAux_unique_min cs c m hpw hmem hmin]
      rfl
  · intro y hy
    by_cases hym : y = m
    · rw [hym]
    · exact le_of_lt (hmin y hy hym)

/-- C1 counterexample: headers `A` (span `[0,10]`, center `5`) and `B`
(span `[10,20]`, center `15`) are at equal center distance `5` from the
no-overlap fragment `[10,10]` (center `10`); instead of deterministically
picking the first header in colMin-sorted order, `find_table` raises
`TypeError` from the tuple comparison tie. -/
theorem find_table_centered_tie_counterexample :
    possibleHeaders .x0 .x1
      (sortByKey (fun h => getAttr h .x0)
        [⟨"A", "f", 0, 100, 10, 101⟩, ⟨"B", "f", 10, 100, 20, 101⟩])
      ⟨"x", "f", 10, 50, 10, 51⟩ = []
    ∧ headerDist .x0 .x1 (lineCtr .x0 .x1 ⟨"x", "f", 10, 50, 10, 51⟩)
        ⟨"A", "f", 0, 100, 10, 101⟩
      = headerDist .x0 .x1 (lineCtr .x0 .x1 ⟨"x", "f", 10, 50, 10, 51⟩)
        ⟨"B", "f", 10, 100, 20, 101⟩
    ∧ find_table [⟨"A", "f", 0, 100, 10, 101⟩, ⟨"B", "f", 10, 100, 20, 101⟩]
        [⟨"x", "f", 10, 50, 10, 51⟩] .y0 .y1 .x0 .x1 true "centered"
      = .error .typeError := by
  refine ⟨?_, ?_, ?_⟩
  · norm_num [possibleHeaders, overlapsAndHeaders, overlap, sortByKey, getAttr,
      List.insertionSort, List.orderedInsert]
  · norm_num [headerDist, lineCtr, getAttr]
  · simp [find_table, buildRows, buildRow, chooseHeader, possibleHeaders,
      overlapsAndHeaders, overlap, sortByKey, sortedKeys, get_attr_lookup,
      attrLookupInsert, assocFind, getAttr, centeredCandidates, headerDist, lineCtr,
      rowKeys, List.insertionSort, List.orderedInsert, Except.map]
    norm_num [pyMin, pyMinAux, Except.map]

/-- Witness for C1: headers `A` (center `2`) and `B` (center `12`),
fragment centered at `5` with no overlap; distances `3` and `7` are
distinct and the fragment is assigned to the nearer header `A`. -/
theorem find_table_centered_bias_witness :
    chooseHeader .x0 .x1 "centered"
      (sortByKey (fun h => getAttr h .x0)
        [⟨"A", "f", 0, 100, 4, 101⟩, ⟨"B", "f", 10, 100, 14, 101⟩])
      ⟨"x", "f", 5, 50, 5, 51⟩ = .ok "A" := by
  have h := find_table_centered_bias .x0 .x1
    [⟨"A", "f", 0, 100, 4, 101⟩, ⟨"B", "f", 10, 100, 14, 101⟩]
    ⟨"x", "f", 5, 50, 5, 51⟩ (by norm_num [getAttr])
    (by norm_num [possibleHeaders, overlapsAndHeaders, overlap, sortByKey, getAttr,
      List.insertionSort, List.orderedInsert])
    (3, ⟨"A", "f", 0, 100, 4, 101⟩)
    (by norm_num [centeredCandidates, headerDist, lineCtr, sortByKey, getAttr,
      List.insertionSort, List.orderedInsert])
    (by norm_num [centeredCandidates, headerDist, lineCtr, sortByKey, getAttr,
      List.insertionSort, List.orderedInsert])
    (by
      intro y hy hym
      simp [centeredCandidates, headerDist, lineCtr, sortByKey, getAttr,
        List.insertionSort, List.orderedInsert] at hy
      rcases hy with hy | hy
      · exact absurd (by rw [hy]; norm_num) hym
      · rw [hy]; norm_num)
  exact h.1

/-- C3: in `find_table`, when the header key chosen for a fragment is
already present in the row dict being built, the build raises the
duplicate-key `ValueError` carrying the offending header key (the earlier
entry is never overwritten). -/
theorem find_table_duplicate_key (cmin cmax : Attr) (heading_bias : String)
    (headers : List TextLine) (row : Row) (l : TextLine) (rest : List TextLine) (key : String)
    (hchoose : chooseHeader cmin cmax heading_bias headers l = .ok key)
    (hmem : key ∈ rowKeys row) :
    buildRow cmin cmax heading_bias headers row (l :: rest)
      = .error (.duplicateKey key) := by
  rw [buildRow, hchoose]
  dsimp only
  rw [if_pos hmem]

/-- Witness for C3: header `A` spans `[0,10]`, the row already maps key
`"A"`, and the next fragment `[1,2]` also resolves to `"A"`; the build
fails with `duplicateKey "A"`. -/
theorem find_table_duplicate_key_witness :
    buildRow .x0 .x1 "centered" [⟨"A", "f", 0, 100, 10, 101⟩]
      [("A", ⟨"w", "f", 3, 50, 4, 51⟩)] [⟨"x", "f", 1, 50, 2, 51⟩]
      = .error (.duplicateKey "A") := by
  exact find_table_duplicate_key .x0 .x1 "centered" [⟨"A", "f", 0, 100, 10, 101⟩]
    [("A", ⟨"w", "f", 3, 50, 4, 51⟩)] ⟨"x", "f", 1, 50, 2, 51⟩ [] "A"
    (by norm_num [chooseHeader, possibleHeaders, overlapsAndHeaders, overlap, getAttr])
    (by norm_num [rowKeys])


/-- Processing one more line extends the lookup by one insertion step. -/
lemma get_attr_lookup_concat (ls : List TextLine) (l : TextLine) (attr : Attr) :
    get_attr_lookup (ls ++ [l]) attr
      = attrLookupInsert (get_attr_lookup ls attr) (getAttr l attr) l := by
  unfold get_attr_lookup
  rw [List.foldl_append]
  rfl

/-- Inserting a line leaves the key list unchanged when the key is known,
and appends the key on first occurrence. -/
lemma attrLookupInsert_keys (acc : List (ℚ × List TextLine)) (k : ℚ) (l : TextLine) :
    (attrLookupInsert acc k l).map Prod.fst
      = if k ∈ acc.map Prod.fst then acc.map Prod.fst else acc.map Prod.fst ++ [k] := by
  induction acc with
  | nil => simp [attrLookupInsert]
  | cons p rest ih =>
    rcases p with ⟨k0, g⟩
    rw [attrLookupInsert]
    by_cases hk : k0 = k
    · rw [if_pos hk]
      simp [hk]
    · rw [if_neg hk]
      by_cases hmem : k ∈ rest.map Prod.fst
      · simp only [List.map_cons]
        rw [ih]
        simp [hmem, hk, Ne.symm hk]
      · simp only [List.map_cons]
        rw [ih]
        simp [hmem, hk, Ne.symm hk]

/-- Effect of one insertion step on a key lookup. -/
lemma assocFind_insert (acc : List (ℚ × List TextLine)) (k : ℚ) (l : TextLine) (k' : ℚ) :
    assocFind (attrLookupInsert acc k l) k'
      = if k' = k then assocFind acc k' ++ [l] else assocFind acc k' := by
  induction acc with
  | nil =>
    rcases eq_or_ne k' k with h | h
    · subst h
      simp [attrLookupInsert, assocFind]
    · simp [attrLookupInsert, assocFind, h, Ne.symm h]
  | cons p rest ih =>
    rcases p with ⟨k0, g⟩
    rw [attrLookupInsert]
    by_cases hk : k0 = k
    · rw [if_pos hk]
      subst hk
      rcases eq_or_ne k' k0 with h' | h'
      · subst h'
        simp [assocFind]
      · simp [assocFind, h', Ne.symm h']
    · rw [if_neg hk]
      rcases eq_or_ne k0 k' with h' | h'
      · have hn : k' ≠ k := fun he => hk (h' ▸ he)
        simp [assocFind, h', hn]
      · simp [assocFind, h', ih]

/-- A key's group in the lookup is exactly the sublist of lines carrying
that coordinate value. -/
lemma get_attr_lookup_find (lines : List TextLine) (attr : Attr) (k : ℚ) :
    assocFind (get_attr_lookup lines attr) k
      = lines.filter fun x => getAttr x attr == k := by
  induction lines using List.reverseRecOn with
  | nil => rfl
  | append_singleton ls l ih =>
    rw [get_attr_lookup_concat, assocFind_insert, List.filter_append]
    rcases eq_or_ne k (getAttr l attr) with h | h
    · rw [if_pos h, ih]
      simp [List.filter, h.symm]
    · rw [if_neg h, ih]
      simp [beq_iff_eq, Ne.symm h]

/-- The lookup's keys are exactly the coordinate values occurring among
the lines. -/
lemma get_attr_lookup_keys_mem (lines : List TextLine) (attr : Attr) (k : ℚ) :
    k ∈ (get_attr_lookup lines attr).map Prod.fst
      ↔ k ∈ lines.map fun x => getAttr x attr := by
  induction lines using List.reverseRecOn generalizing k with
  | nil => simp [get_attr_lookup]
  | append_singleton ls l ih =>
    rw [get_attr_lookup_concat, attrLookupInsert_keys]
    by_cases hmem : getAttr l attr ∈ (get_attr_lookup ls attr).map Prod.fst
    · rw [if_pos hmem]
      rw [ih k]
      simp only [List.map_append, List.map_singleton, List.mem_append, List.mem_singleton]
      constructor
      · exact fun h => Or.inl h
      · rintro (h | h)
        · exact h
        · rw [h]
          exact (ih (getAttr l attr)).mp hmem
    · rw [if_neg hmem]
      simp [ih]

/-- The lookup has no duplicate coordinate keys: the groups are in
bijection with the distinct coordinate values. -/
lemma get_attr_lookup_nodup (lines : List TextLine) (attr : Attr) :
    ((get_attr_lookup lines attr).map Prod.fst).Nodup := by
  induction lines using List.reverseRecOn with
  | nil => simp [get_attr_lookup]
  | append_singleton ls l ih =>
    rw [get_attr_lookup_concat, attrLookupInsert_keys]
    by_cases hmem : getAttr l attr ∈ (get_attr_lookup ls attr).map Prod.fst
    · rw [if_pos hmem]
      exact ih
    · rw [if_neg hmem]
      simp [List.nodup_append, ih, hmem]

/-- In an association list with distinct keys, lookup of a present entry
returns its group. -/
lemma assocFind_of_mem (acc : List (ℚ × List TextLine))
    (hnd : (acc.map Prod.fst).Nodup) (k : ℚ) (g : List TextLine)
    (hm : (k, g) ∈ acc) : assocFind acc k = g := by
  induction acc with
  | nil => exact absurd hm (List.not_mem_nil _)
  | cons p rest ih =>
    rcases p with ⟨k0, g0⟩
    rw [List.mem_cons] at hm
    rcases hm with hm | hm
    · rw [assocFind, if_pos (congrArg Prod.fst hm.symm)]
      exact ((Prod.mk.injEq _ _ _ _).mp hm).2.symm
    · have hk : k0 ≠ k := by
        intro he
        have : k ∈ rest.map Prod.fst := List.mem_map_of_mem Prod.fst hm
        rw [List.map_cons] at hnd
        exact (List.nodup_cons.mp hnd).1 (he ▸ this)
      rw [assocFind, if_neg hk]
      exact ih (by rw [List.map_cons] at hnd; exact (List.nodup_cons.mp hnd).2) hm

/-- C2: `find_attr_group_matching` groups the lines by the exact
coordinate value (the groups have pairwise distinct coordinates and each
group holds exactly the lines at its coordinate), and is trichotomous on
the groups in which every pattern is matched by at least one line's text:
no matching group raises `GroupNotFound`, exactly one matching group
returns that group's coordinate value, and two or more matching groups
raise the ambiguity `RuntimeError` -- it never silently picks one. -/
theorem find_attr_group_matching_trichotomy (regexes : List (String → Bool))
    (attr : Attr) (lines : List TextLine) :
    ((get_attr_lookup lines attr).map Prod.fst).Nodup
    ∧ (∀ p ∈ get_attr_lookup lines attr,
        p.2 = lines.filter fun x => getAttr x attr == p.1)
    ∧ ((get_attr_lookup lines attr).filter (groupMatches regexes) = []
        → find_attr_group_matching regexes attr lines = .error .groupNotFound)
    ∧ (∀ g, (get_attr_lookup lines attr).filter (groupMatches regexes) = [g]
        → find_attr_group_matching regexes attr lines = .ok g.1)
    ∧ (∀ g₀ g₁ gs,
        (get_attr_lookup lines attr).filter (groupMatches regexes) = g₀ :: g₁ :: gs
        → find_attr_group_matching regexes attr lines
            = .error .runtimeMoreThanOneGroup) := by
  refine ⟨get_attr_lookup_nodup lines attr, ?_, ?_, ?_, ?_⟩
  · intro p hp
    rcases p with ⟨k, g⟩
    have := assocFind_of_mem (get_attr_lookup lines attr)
      (get_attr_lookup_nodup lines attr) k g hp
    rw [← this, get_attr_lookup_find]
  · intro hE
    unfold find_attr_group_matching
    dsimp only
    rw [hE]
  · intro g hE
    unfold find_attr_group_matching
    dsimp only
    rw [hE]
  · intro g₀ g₁ gs hE
    unfold find_attr_group_matching
    dsimp only
    rw [hE]

/-- Witness for C2: two lines at `y0 = 0` and `y0 = 7`; the single
pattern matches only the `y0 = 0` group, whose coordinate is returned. -/
theorem find_attr_group_matching_trichotomy_witness :
    find_attr_group_matching [fun s => s == "foo"] .y0
      [⟨"foo", "f", 0, 0, 1, 1⟩, ⟨"bar", "f", 0, 7, 1, 8⟩] = .ok 0 := by
  have h := (find_attr_group_matching_trichotomy [fun s => s == "foo"] .y0
    [⟨"foo", "f", 0, 0, 1, 1⟩, ⟨"bar", "f", 0, 7, 1, 8⟩]).2.2.2.1
    (0, [⟨"foo", "f", 0, 0, 1, 1⟩])
    (by simp [get_attr_lookup, attrLookupInsert, getAttr, groupMatches, List.filter])
  exact h


/-- A running `min` fold never exceeds its initial value. -/
lemma foldl_min_le_init (l : List ℚ) (a : ℚ) : l.foldl min a ≤ a := by
  induction l generalizing a with
  | nil => exact le_refl a
  | cons x t ih => exact le_trans (ih (min a x)) (min_le_left a x)

/-- A running `max` fold never drops below its initial value. -/
lemma le_foldl_max_init (l : List ℚ) (a : ℚ) : a ≤ l.foldl max a := by
  induction l generalizing a with
  | nil => exact le_refl a
  | cons x t ih => exact le_trans (le_max_left a x) (ih (max a x))

/-- On a nonempty row, `get_row_extent` succeeds with the total extent. -/
lemma get_row_extent_ok (rmin rmax : Attr) (row : Row) (h : row ≠ []) :
    get_row_extent rmin rmax row = .ok (specRowExtent rmin rmax row) := by
  rcases row with _ | ⟨p, rest⟩
  · exact absurd rfl h
  · simp only [get_row_extent, specRowExtent, rowValues, pyListMin, pyListMax,
      List.map_map, List.map_cons, Function.comp_def]

/-- A well-formed row has a well-ordered extent, so the `assert` inside
`overlap` passes. -/
lemma specRowExtent_wf (rmin rmax : Attr) (row : Row) (h : rowWF rmin rmax row) :
    (specRowExtent rmin rmax row).1 ≤ (specRowExtent rmin rmax row).2 := by
  rcases row with _ | ⟨p, rest⟩
  · exact absurd rfl h.1
  · have h1 := foldl_min_le_init (rest.map fun q => getAttr q.2 rmin) (getAttr p.2 rmin)
    have h2 := le_foldl_max_init (rest.map fun q => getAttr q.2 rmax) (getAttr p.2 rmax)
    have h3 := h.2 p (List.mem_cons_self p rest)
    simp only [specRowExtent]
    exact le_trans h1 (le_trans h3 h2)

/-- Setting a key never empties a dict. -/
lemma dictSet_ne_nil (row : Row) (k : String) (v : TextLine) : dictSet row k v ≠ [] := by
  unfold dictSet
  by_cases hmem : k ∈ rowKeys row
  · rw [if_pos hmem]
    intro he
    rw [List.map_eq_nil_iff] at he
    rw [he] at hmem
    exact (List.not_mem_nil k) hmem
  · rw [if_neg hmem]
    exact List.append_ne_nil_of_right_ne_nil row (List.cons_ne_nil _ _)

/-- `row.update(...)` never empties a nonempty dict. -/
lemma rowUpdate_ne_nil (next : Row) : ∀ row : Row, row ≠ [] → rowUpdate row next ≠ [] := by
  induction next with
  | nil => exact fun row h => h
  | cons q t ih =>
    intro row _
    exact ih (dictSet row q.1 q.2) (dictSet_ne_nil row q.1 q.2)

/-- Entries after a key set come from the dict or are the set pair. -/
lemma mem_dictSet (row : Row) (k : String) (v : TextLine) (p : String × TextLine)
    (hp : p ∈ dictSet row k v) : p ∈ row ∨ p = (k, v) := by
  unfold dictSet at hp
  by_cases hmem : k ∈ rowKeys row
  · rw [if_pos hmem, List.mem_map] at hp
    rcases hp with ⟨q, hq, hqp⟩
    by_cases hqk : q.1 = k
    · rw [if_pos hqk] at hqp
      exact Or.inr hqp.symm
    · rw [if_neg hqk] at hqp
      exact Or.inl (hqp ▸ hq)
  · rw [if_neg hmem, List.mem_append, List.mem_singleton] at hp
    exact hp

/-- Entries after `row.update(next)` come from one of the two rows. -/
lemma rowUpdate_mem (next : Row) : ∀ (row : Row) (p : String × TextLine),
    p ∈ rowUpdate row next → p ∈ row ∨ p ∈ next := by
  induction next with
  | nil => exact fun row p hp => Or.inl hp
  | cons q t ih =>
    intro row p hp
    rcases ih (dictSet row q.1 q.2) p hp with h | h
    · rcases mem_dictSet row q.1 q.2 p h with h' | h'
      · exact Or.inl h'
      · exact Or.inr (h' ▸ List.mem_cons_self q t)
    · exact Or.inr (List.mem_cons_of_mem q h)

/-- Merging two well-formed rows gives a well-formed row. -/
lemma rowWF_rowUpdate (rmin rmax : Attr) (row next : Row)
    (h1 : rowWF rmin rmax row) (h2 : rowWF rmin rmax next) :
    rowWF rmin rmax (rowUpdate row next) := by
  refine ⟨rowUpdate_ne_nil next row h1.1, fun p hp => ?_⟩
  rcases rowUpdate_mem next row p hp with h | h
  · exact h1.2 p h
  · exact h2.2 p h

/-- The `while` loop of `merge_overlapping_rows` computes exactly the
accumulator walk described by the spec, given well-formed rows. -/
lemma mergeAux_eq_spec (rmin rmax : Attr) (rest : List Row) :
    ∀ (new_rows : List Row) (row : Row), rowWF rmin rmax row →
    (∀ r ∈ rest, rowWF rmin rmax r) →
    mergeAux rmin rmax new_rows row rest
      = .ok (new_rows ++ mergeSpecAux rmin rmax row rest) := by
  induction rest with
  | nil => intro new_rows row _ _; rfl
  | cons next t ih =>
    intro new_rows row hwf hall
    have hnext : rowWF rmin rmax next := hall next (List.mem_cons_self next t)
    rw [mergeAux, get_row_extent_ok rmin rmax row hwf.1,
      get_row_extent_ok rmin rmax next hnext.1]
    dsimp only
    rw [overlapChecked, if_pos (specRowExtent_wf rmin rmax next hnext)]
    dsimp only
    by_cases hov : overlap (specRowExtent rmin rmax row).1 (specRowExtent rmin rmax row).2
        (specRowExtent rmin rmax next).1 (specRowExtent rmin rmax next).2 = 0
    · rw [if_neg (by simp [hov])]
      rw [ih (new_rows ++ [row]) next hnext (fun r hr => hall r (List.mem_cons_of_mem next hr))]
      rw [mergeSpecAux, if_neg (by rw [hov]; exact lt_irrefl 0)]
      rw [List.append_assoc]
      rfl
    · have hpos : 0 < overlap (specRowExtent rmin rmax row).1 (specRowExtent rmin rmax row).2
          (specRowExtent rmin rmax next).1 (specRowExtent rmin rmax next).2 :=
        lt_of_le_of_ne (overlap_nonneg _ _ _ _) (Ne.symm hov)
      rw [if_pos (by simp [hov])]
      rw [ih new_rows (rowUpdate row next) (rowWF_rowUpdate rmin rmax row next hwf hnext)
        (fun r hr => hall r (List.mem_cons_of_mem next hr))]
      rw [mergeSpecAux, if_pos hpos]

/-- `merge_overlapping_rows` refines the spec-side accumulator walk on
well-formed input. -/
lemma merge_eq_spec (rmin rmax : Attr) (rows : List Row)
    (h : ∀ r ∈ rows, rowWF rmin rmax r) :
    merge_overlapping_rows rows rmin rmax = .ok (mergeSpec rmin rmax rows) := by
  rcases rows with _ | ⟨row, rest⟩
  · rfl
  · rw [merge_overlapping_rows, mergeSpec]
    rw [mergeAux_eq_spec rmin rmax rest [] row (h row (List.mem_cons_self row rest))
      (fun r hr => h r (List.mem_cons_of_mem row hr))]
    rw [List.nil_append]

/-- Looking up the overwritten key after an in-place overwrite. -/
lemma rowGet_map_set (row : Row) (k : String) (v : TextLine) (hmem : k ∈ rowKeys row) :
    rowGet (row.map fun p => if p.1 = k then (k, v) else p) k = some v := by
  induction row with
  | nil => exact absurd hmem (List.not_mem_nil k)
  | cons p rest ih =>
    by_cases hpk : p.1 = k
    · simp [List.map_cons, if_pos hpk, rowGet]
    · simp only [List.map_cons, if_neg hpk, rowGet, if_neg hpk]
      exact ih (by
        rcases List.mem_cons.mp hmem with h | h
        · exact absurd h.symm hpk
        · exact h)

/-- Looking up a freshly appended key. -/
lemma rowGet_append_single (row : Row) (k : String) (v : TextLine)
    (h : k ∉ rowKeys row) : rowGet (row ++ [(k, v)]) k = some v := by
  induction row with
  | nil => simp [rowGet]
  | cons p rest ih =>
    have hpk : p.1 ≠ k := fun he => h (he ▸ List.mem_cons_self p.1 (rowKeys rest))
    rw [List.cons_append, rowGet, if_neg hpk]
    exact ih fun hm => h (List.mem_cons_of_mem p.1 hm)

/-- Setting a key makes its lookup return the new value. -/
lemma rowGet_dictSet_self (row : Row) (k : String) (v : TextLine) :
    rowGet (dictSet row k v) k = some v := by
  unfold dictSet
  by_cases hmem : k ∈ rowKeys row
  · rw [if_pos hmem]
    exact rowGet_map_set row k v hmem
  · rw [if_neg hmem]
    exact rowGet_append_single row k v hmem

/-- Setting a key leaves other keys untouched. -/
lemma rowGet_dictSet_ne (row : Row) (k : String) (v : TextLine) (k' : String)
    (h : k' ≠ k) : rowGet (dictSet row k v) k' = rowGet row k' := by
  unfold dictSet
  by_cases hmem : k ∈ rowKeys row
  · rw [if_pos hmem]
    clear hmem
    induction row with
    | nil => rfl
    | cons p rest ih =>
      by_cases hpk : p.1 = k
      · rw [List.map_cons, if_pos hpk, rowGet, rowGet, if_neg (Ne.symm h),
          if_neg (show ¬ p.1 = k' by intro he; exact h (hpk ▸ he ▸ rfl))]
        exact ih
      · rw [List.map_cons, if_neg hpk, rowGet, rowGet]
        by_cases hpk' : p.1 = k'
        · rw [if_pos hpk', if_pos hpk']
        · rw [if_neg hpk', if_neg hpk']
          exact ih
  · rw [if_neg hmem]
    induction row with
    | nil => simp [rowGet, Ne.symm h]
    | cons p rest ih =>
      rw [List.cons_append, rowGet, rowGet]
      by_cases hpk' : p.1 = k'
      · rw [if_pos hpk', if_pos hpk']
      · rw [if_neg hpk', if_neg hpk']
        exact ih fun hm => hmem (List.mem_cons_of_mem p.1 hm)

/-- Updating with `next` leaves keys absent from `next` untouched. -/
lemma rowUpdate_get_of_not_mem (next : Row) : ∀ (acc : Row) (k : String),
    k ∉ rowKeys next → rowGet (rowUpdate acc next) k = rowGet acc k := by
  induction next with
  | nil => intro acc k _; rfl
  | cons q t ih =>
    intro acc k hk
    have hk1 : k ≠ q.1 := fun he => hk (he ▸ List.mem_cons_self q.1 (rowKeys t))
    have hk2 : k ∉ rowKeys t := fun hm => hk (List.mem_cons_of_mem q.1 hm)
    rw [show rowUpdate acc (q :: t) = rowUpdate (dictSet acc q.1 q.2) t from rfl]
    rw [ih (dictSet acc q.1 q.2) k hk2]
    exact rowGet_dictSet_ne acc q.1 q.2 k hk1

/-- Updating with `next` gives keys of `next` the values from `next`
(the later row's entries overwrite on collision). -/
lemma rowUpdate_get_of_mem (next : Row) : ∀ (acc : Row) (k : String),
    (rowKeys next).Nodup → k ∈ rowKeys next →
    rowGet (rowUpdate acc next) k = rowGet next k := by
  induction next with
  | nil => intro acc k _ hk; exact absurd hk (List.not_mem_nil k)
  | cons q t ih =>
    intro acc k hnd hk
    have hnd' := List.nodup_cons.mp (show (q.1 :: rowKeys t).Nodup from hnd)
    rw [show rowUpdate acc (q :: t) = rowUpdate (dictSet acc q.1 q.2) t from rfl]
    by_cases hkq : k = q.1
    · rw [hkq]
      rw [rowUpdate_get_of_not_mem t (dictSet acc q.1 q.2) q.1 hnd'.1]
      rw [rowGet_dictSet_self, rowGet, if_pos rfl]
    · have hkt : k ∈ rowKeys t := by
        rcases List.mem_cons.mp hk with h | h
        · exact absurd h hkq
        · exact h
      rw [ih (dictSet acc q.1 q.2) k hnd'.2 hkt, rowGet, if_neg (fun he => hkq he.symm)]

/-- An in-place overwrite preserves the key list. -/
lemma rowKeys_map_set (row : Row) (k : String) (v : TextLine) :
    rowKeys (row.map fun p => if p.1 = k then (k, v) else p) = rowKeys row := by
  induction row with
  | nil => rfl
  | cons p rest ih =>
    unfold rowKeys at ih ⊢
    by_cases hpk : p.1 = k
    · rw [List.map_cons, if_pos hpk, List.map_cons, ih, List.map_cons, hpk]
    · rw [List.map_cons, if_neg hpk, List.map_cons, ih, List.map_cons]

/-- Key membership after a dict set. -/
lemma rowKeys_dictSet_mem (row : Row) (k : String) (v : TextLine) (k' : String) :
    k' ∈ rowKeys (dictSet row k v) ↔ k' ∈ rowKeys row ∨ k' = k := by
  unfold dictSet
  by_cases hmem : k ∈ rowKeys row
  · rw [if_pos hmem, rowKeys_map_set]
    constructor
    · exact fun h => Or.inl h
    · rintro (h | h)
      · exact h
      · exact h ▸ hmem
  · rw [if_neg hmem]
    simp [rowKeys]

/-- Key membership after an update is the union of both rows' keys. -/
lemma rowKeys_rowUpdate_mem (next : Row) : ∀ (acc : Row) (k' : String),
    k' ∈ rowKeys (rowUpdate acc next) ↔ k' ∈ rowKeys acc ∨ k' ∈ rowKeys next := by
  induction next with
  | nil =>
    intro acc k'
    constructor
    · exact fun h => Or.inl h
    · rintro (h | h)
      · exact h
      · exact absurd h (List.not_mem_nil k')
  | cons q t ih =>
    intro acc k'
    rw [show rowUpdate acc (q :: t) = rowUpdate (dictSet acc q.1 q.2) t from rfl]
    rw [ih (dictSet acc q.1 q.2) k', rowKeys_dictSet_mem]
    simp only [rowKeys, List.map_cons, List.mem_cons]
    tauto

/-- With no adjacent overlap the accumulator walk returns its input. -/
lemma mergeSpecAux_no_overlap (rmin rmax : Attr) (rest : List Row) : ∀ acc : Row,
    List.Chain' (fun r s =>
      overlap (specRowExtent rmin rmax r).1 (specRowExtent rmin rmax r).2
        (specRowExtent rmin rmax s).1 (specRowExtent rmin rmax s).2 = 0) (acc :: rest) →
    mergeSpecAux rmin rmax acc rest = acc :: rest := by
  induction rest with
  | nil => intro acc _; rfl
  | cons next t ih =>
    intro acc hch
    have h1 := (List.chain'_cons.mp hch).1
    have h2 := (List.chain'_cons.mp hch).2
    rw [mergeSpecAux, if_neg (by rw [h1]; exact lt_irrefl 0), ih next h2]

/-- The accumulator walk preserves the union of row keys. -/
lemma mergeSpecAux_keys (rmin rmax : Attr) (rest : List Row) : ∀ (acc : Row) (k : String),
    (∃ r ∈ mergeSpecAux rmin rmax acc rest, k ∈ rowKeys r)
      ↔ k ∈ rowKeys acc ∨ ∃ r ∈ rest, k ∈ rowKeys r := by
  induction rest with
  | nil => intro acc k; simp [mergeSpecAux]
  | cons next t ih =>
    intro acc k
    rw [mergeSpecAux]
    by_cases hov : 0 < overlap (specRowExtent rmin rmax acc).1 (specRowExtent rmin rmax acc).2
        (specRowExtent rmin rmax next).1 (specRowExtent rmin rmax next).2
    · rw [if_pos hov, ih (rowUpdate acc next) k]
      rw [rowKeys_rowUpdate_mem next acc k]
      simp only [List.mem_cons]
      constructor
      · rintro ((h | h) | h)
        · exact Or.inl h
        · exact Or.inr ⟨next, Or.inl rfl, h⟩
        · rcases h with ⟨r, hr, hk⟩
          exact Or.inr ⟨r, Or.inr hr, hk⟩
      · rintro (h | ⟨r, hr | hr, hk⟩)
        · exact Or.inl (Or.inl h)
        · exact Or.inl (Or.inr (hr ▸ hk))
        · exact Or.inr ⟨r, hr, hk⟩
    · rw [if_neg hov]
      simp only [List.mem_cons]
      constructor
      · rintro ⟨r, hr | hr, hk⟩
        · exact Or.inl (hr ▸ hk)
        · rcases (ih next k).mp ⟨r, hr, hk⟩ with h | ⟨r', hr', hk'⟩
          · exact Or.inr ⟨next, Or.inl rfl, h⟩
          · exact Or.inr ⟨r', Or.inr hr', hk'⟩
      · rintro (h | ⟨r, hr | hr, hk⟩)
        · exact ⟨acc, Or.inl rfl, h⟩
        · rcases (ih next k).mpr (Or.inl (hr ▸ hk)) with ⟨r', hr', hk'⟩
          exact ⟨r', Or.inr hr', hk'⟩
        · rcases (ih next k).mpr (Or.inr ⟨r, hr, hk⟩) with ⟨r', hr', hk'⟩
          exact ⟨r', Or.inr hr', hk'⟩

/-- C6: on well-formed rows, `merge_overlapping_rows` computes exactly
the claimed accumulator walk (`mergeSpec`, written from the spec's
wording): positive extent overlap merges the next row into the
accumulator, no overlap closes the accumulator out, the final accumulator
is always appended, and empty input yields empty output; on key collision
the merge takes the later row's entry and leaves other keys untouched. -/
theorem merge_overlapping_rows_spec (rmin rmax : Attr) (rows : List Row)
    (h : ∀ r ∈ rows, rowWF rmin rmax r) :
    merge_overlapping_rows rows rmin rmax = .ok (mergeSpec rmin rmax rows)
    ∧ merge_overlapping_rows ([] : List Row) rmin rmax = .ok []
    ∧ (∀ acc next : Row, (rowKeys next).Nodup →
        ∀ k ∈ rowKeys next, rowGet (rowUpdate acc next) k = rowGet next k)
    ∧ (∀ (acc next : Row) (k : String), k ∉ rowKeys next →
        rowGet (rowUpdate acc next) k = rowGet acc k) := by
  refine ⟨merge_eq_spec rmin rmax rows h, rfl, ?_, ?_⟩
  · exact fun acc next hnd k hk => rowUpdate_get_of_mem next acc k hnd hk
  · exact fun acc next k hk => rowUpdate_get_of_not_mem next acc k hk

/-- Witness for C6: rows with extents `(0,5)` and `(4,9)` (overlap `1`)
merge into one row taking the later row's value for the shared key. -/
theorem merge_overlapping_rows_spec_witness :
    merge_overlapping_rows
      [[("A", ⟨"a", "f", 0, 0, 1, 5⟩)],
       [("A", ⟨"b", "f", 0, 4, 1, 9⟩), ("B", ⟨"c", "f", 0, 4, 1, 9⟩)]] .y0 .y1
      = .ok [[("A", ⟨"b", "f", 0, 4, 1, 9⟩), ("B", ⟨"c", "f", 0, 4, 1, 9⟩)]] := by
  have h := (merge_overlapping_rows_spec .y0 .y1
    [[("A", ⟨"a", "f", 0, 0, 1, 5⟩)],
     [("A", ⟨"b", "f", 0, 4, 1, 9⟩), ("B", ⟨"c", "f", 0, 4, 1, 9⟩)]]
    (by
      intro r hr
      simp only [List.mem_cons, List.not_mem_nil, or_false] at hr
      rcases hr with hr | hr <;> subst hr <;>
        refine ⟨List.cons_ne_nil _ _, ?_⟩ <;> norm_num [getAttr])).1
  rw [h]
  simp [mergeSpec, mergeSpecAux, specRowExtent, overlap, rowUpdate, dictSet,
    rowKeys, getAttr]
  norm_num [mergeSpecAux, rowUpdate, dictSet, rowKeys]

/-- C7: on a well-formed row sequence in which no adjacent pair of rows
has strictly positive extent overlap, `merge_overlapping_rows` returns
the identical sequence unchanged. -/
theorem merge_overlapping_rows_idempotent (rmin rmax : Attr) (rows : List Row)
    (h : ∀ r ∈ rows, rowWF rmin rmax r)
    (hadj : List.Chain' (fun r s =>
      overlap (specRowExtent rmin rmax r).1 (specRowExtent rmin rmax r).2
        (specRowExtent rmin rmax s).1 (specRowExtent rmin rmax s).2 = 0) rows) :
    merge_overlapping_rows rows rmin rmax = .ok rows := by
  rw [merge_eq_spec rmin rmax rows h]
  rcases rows with _ | ⟨row, rest⟩
  · rfl
  · rw [mergeSpec, mergeSpecAux_no_overlap rmin rmax rest row hadj]

/-- Witness for C7: two rows with extents `(0,5)` and `(6,9)` (no
overlap) are returned unchanged. -/
theorem merge_overlapping_rows_idempotent_witness :
    merge_overlapping_rows
      [[("A", ⟨"a", "f", 0, 0, 1, 5⟩)], [("B", ⟨"b", "f", 0, 6, 1, 9⟩)]] .y0 .y1
      = .ok [[("A", ⟨"a", "f", 0, 0, 1, 5⟩)], [("B", ⟨"b", "f", 0, 6, 1, 9⟩)]] := by
  exact merge_overlapping_rows_idempotent .y0 .y1
    [[("A", ⟨"a", "f", 0, 0, 1, 5⟩)], [("B", ⟨"b", "f", 0, 6, 1, 9⟩)]]
    (by
      intro r hr
      simp only [List.mem_cons, List.not_mem_nil, or_false] at hr
      rcases hr with hr | hr <;> subst hr <;>
        refine ⟨List.cons_ne_nil _ _, ?_⟩ <;> norm_num [getAttr])
    (by
      refine List.chain'_cons.mpr ⟨?_, List.chain'_singleton _⟩
      norm_num [specRowExtent, overlap, getAttr])

/-- C10: on well-formed rows, `merge_overlapping_rows` succeeds and the
union of header keys over the output rows equals the union over the input
rows. -/
theorem merge_overlapping_rows_key_union (rmin rmax : Attr) (rows : List Row)
    (h : ∀ r ∈ rows, rowWF rmin rmax r) :
    ∃ out, merge_overlapping_rows rows rmin rmax = .ok out
      ∧ ∀ k, (∃ r ∈ out, k ∈ rowKeys r) ↔ ∃ r ∈ rows, k ∈ rowKeys r := by
  refine ⟨mergeSpec rmin rmax rows, merge_eq_spec rmin rmax rows h, ?_⟩
  intro k
  rcases rows with _ | ⟨row, rest⟩
  · simp [mergeSpec]
  · rw [mergeSpec, mergeSpecAux_keys rmin rmax rest row k]
    simp only [List.mem_cons]
    constructor
    · rintro (h' | ⟨r, hr, hk⟩)
      · exact ⟨row, Or.inl rfl, h'⟩
      · exact ⟨r, Or.inr hr, hk⟩
    · rintro ⟨r, hr | hr, hk⟩
      · exact Or.inl (hr ▸ hk)
      · exact Or.inr ⟨r, hr, hk⟩

/-- Witness for C10: two non-overlapping one-key rows; the output carries
exactly the two keys of the input. -/
theorem merge_overlapping_rows_key_union_witness :
    ∃ out, merge_overlapping_rows
        [[("A", ⟨"a", "f", 0, 0, 1, 5⟩)],
         [("B", ⟨"b", "f", 0, 4, 1, 9⟩)]] .y0 .y1 = .ok out
      ∧ ∀ k, (∃ r ∈ out, k ∈ rowKeys r)
          ↔ ∃ r ∈ [[("A", ⟨"a", "f", 0, 0, 1, 5⟩)],
              [("B", (⟨"b", "f", 0, 4, 1, 9⟩ : TextLine))]], k ∈ rowKeys r := by
  exact merge_overlapping_rows_key_union .y0 .y1
    [[("A", ⟨"a", "f", 0, 0, 1, 5⟩)], [("B", ⟨"b", "f", 0, 4, 1, 9⟩)]]
    (by
      intro r hr
      simp only [List.mem_cons, List.not_mem_nil, or_false] at hr
      rcases hr with hr | hr <;> subst hr <;>
        refine ⟨List.cons_ne_nil _ _, ?_⟩ <;> norm_num [getAttr])

end Pdf2Data
